import Mathlib

/-!
Shallow embedding of src/alarm.cpp (znc-timer module, class CAlarm and
namespace parser): the duration parser, the remaining-time formatter,
Timer construction, the timer store operations (add, remove, list) and a
single iteration of the background scheduler loop.  Machine time is
modelled as Int (time_t), strings as Lean strings over their char lists.
-/

/-- Membership test of the regex character class [0-9]. -/
def isDig (c : Char) : Bool := 48 ≤ c.toNat && c.toNat ≤ 57

/-- Numeric value that stoll assigns to a captured digit string. -/
def natOfDigits (l : List Char) : Nat :=
  l.foldl (fun a c => 10 * a + (c.toNat - 48)) 0

/-- Leftmost-first search for the ECMAScript pattern ([0-9]{1,2})u used by
parser::secs_from_string, lines 29-34: at each position, greedily try two
digits followed by the unit letter, then one digit followed by the unit
letter, then move one position right.  Returns the captured value. -/
def findUnit2 (u : Char) : List Char → Option Nat
  | [] => none
  | c1 :: rest =>
    if isDig c1 then
      match rest with
      | c2 :: c3 :: _ =>
        if isDig c2 && c3 == u then some (10 * (c1.toNat - 48) + (c2.toNat - 48))
        else if c2 == u then some (c1.toNat - 48)
        else findUnit2 u rest
      | [c2] => if c2 == u then some (c1.toNat - 48) else findUnit2 u rest
      | [] => none
    else findUnit2 u rest

/-- Leftmost-first search for the pattern ([0-9]{1,3})u used for the day
unit, line 35: greedily try three, then two, then one digit followed by
the unit letter before moving one position right. -/
def findUnit3 (u : Char) : List Char → Option Nat
  | [] => none
  | c1 :: rest =>
    if isDig c1 then
      match rest with
      | c2 :: c3 :: c4 :: _ =>
        if isDig c2 && (isDig c3 && c4 == u) then
          some (100 * (c1.toNat - 48) + (10 * (c2.toNat - 48) + (c3.toNat - 48)))
        else if isDig c2 && c3 == u then some (10 * (c1.toNat - 48) + (c2.toNat - 48))
        else if c2 == u then some (c1.toNat - 48)
        else findUnit3 u rest
      | [c2, c3] =>
        if isDig c2 && c3 == u then some (10 * (c1.toNat - 48) + (c2.toNat - 48))
        else if c2 == u then some (c1.toNat - 48)
        else findUnit3 u rest
      | [c2] => if c2 == u then some (c1.toNat - 48) else findUnit3 u rest
      | [] => none
    else findUnit3 u rest

/-- parser::secs_from_string, lines 25-39: four independent regex searches,
each adding its first captured value times the unit factor to the total. -/
def secs_from_string (cs : List Char) : Nat :=
  (findUnit2 's' cs).getD 0
    + 60 * (findUnit2 'm' cs).getD 0
    + 3600 * (findUnit2 'h' cs).getD 0
    + 86400 * (findUnit3 'd' cs).getD 0

/-- Body of parser::string_from_secs, lines 41-61, as a function of the
already-computed difference rest = endTime - time(0).  C++ integer division
truncates toward zero, hence Int.tdiv. -/
def render_rest (rest : Int) : String :=
  let hours := Int.tdiv rest 3600
  let rest1 := rest - hours * 3600
  let minutes := Int.tdiv rest1 60
  let rest2 := rest1 - minutes * 60
  let seconds := rest2
  let minutesString := if minutes < 10 then "0" ++ toString minutes else toString minutes
  let secondsString := if seconds < 10 then "0" ++ toString seconds else toString seconds
  toString hours ++ ":" ++ minutesString ++ ":" ++ secondsString

/-- parser::string_from_secs, lines 40-62, with time(0) passed explicitly. -/
def string_from_secs (endTime now : Int) : String :=
  render_rest (endTime - now)

/-- The two-digit zero-padding applied to the minute and second fields. -/
def pad2 (k : Int) : String :=
  if k < 10 then "0" ++ toString k else toString k

/-- Timer record, lines 65-106: start time, absolute end time, id, reason. -/
structure Timer where
  start_time : Int
  end_time : Int
  timer_id : Nat
  reason : String
deriving DecidableEq

/-- Timer::REASON_LENGTH_MAX, line 101. -/
def REASON_LENGTH_MAX : Nat := 512

/-- reason_length, line 72: sLine.size() > 512 ? 512 : sLine.size() - 1,
with the subtraction done in unsigned size_t arithmetic (wrapping at 2^64)
and the result stored in an unsigned int (wrapping at 2^32). -/
def reason_length (n : Nat) : Nat :=
  (if REASON_LENGTH_MAX < n then REASON_LENGTH_MAX else (n + (2 ^ 64 - 1)) % 2 ^ 64) % 2 ^ 32

/-- std::string::substr(pos, len): throws out_of_range when pos exceeds the
size, otherwise yields at most len characters starting at pos. -/
def substr (l : List Char) (pos len : Nat) : Option (List Char) :=
  if l.length < pos then none else some ((l.drop pos).take len)

/-- Timer::Timer, lines 68-75: record the start time, add the parsed
duration to obtain the end time, and take the reason as
sLine.substr(4, reason_length).  none models the out_of_range throw. -/
def Timer.make (sLine : String) (id : Nat) (now : Int) : Option Timer :=
  (substr sLine.data 4 (reason_length sLine.data.length)).map fun r =>
    { start_time := now
      end_time := (secs_from_string sLine.data : Int) + now
      timer_id := id
      reason := ⟨r⟩ }

/-- Timer::timer_ran_out, lines 84-87: time(0) >= end_time_. -/
def Timer.ran_out (t : Timer) (now : Int) : Bool := t.end_time ≤ now

/-- CAlarm::timer_limit_, line 194. -/
def timer_limit : Nat := 16

/-- Mutable state of CAlarm: the id counter (line 195, an unsigned int,
so every increment is taken modulo 2^32 in add_timer) and the timer list
(line 196). -/
structure AlarmState where
  timer_id : Nat
  timer_list : List Timer
deriving DecidableEq

/-- One step of a stable insertion sort: place t after every element whose
end time is not greater than t's. -/
def insertTimer (t : Timer) : List Timer → List Timer
  | [] => [t]
  | u :: us => if t.end_time < u.end_time then t :: u :: us else u :: insertTimer t us

/-- Left fold of insertTimer over the input list. -/
def sortAux : List Timer → List Timer → List Timer
  | acc, [] => acc
  | acc, x :: xs => sortAux (insertTimer x acc) xs

/-- CAlarm::sort_timers, lines 146-151: std::list::sort with the comparator
a.get_end_time() < b.get_end_time().  std::list::sort is guaranteed stable,
so it is modelled as a stable insertion sort by end time. -/
def sort_timers (l : List Timer) : List Timer := sortAux [] l

/-- CAlarm::add_timer, lines 134-145.  The outputs are the new state, the
PutModule messages, and whether cv_.notify_all() was called.  ++timer_id_
increments an unsigned int, hence the modulus 2^32.  When the Timer
constructor throws (line short of the substr position), the list is
unmodified but ++timer_id_ has already happened. -/
def add_timer (now : Int) (sLine : String) (s : AlarmState) :
    AlarmState × List String × Bool :=
  if timer_limit ≤ s.timer_list.length then
    (s, ["Too many timers running, can't create a new one."], false)
  else
    match Timer.make sLine ((s.timer_id + 1) % 2 ^ 32) now with
    | none => ({ s with timer_id := (s.timer_id + 1) % 2 ^ 32 }, [], false)
    | some t =>
      ({ timer_id := (s.timer_id + 1) % 2 ^ 32,
          timer_list := sort_timers (s.timer_list ++ [t]) },
        ["Timer added."], true)

/-- Leftmost-first search for the pattern ([0-9]{1,5}) of line 156: the
capture starts at the first digit and greedily extends to at most five
digits. -/
def findId : List Char → Option Nat
  | [] => none
  | c :: cs => if isDig c then some (natOfDigits (c :: (cs.takeWhile isDig).take 4)) else findId cs

/-- Lines 154-157: the removal target id parsed from the command line;
when no digit occurs the declared initial value timer_limit_ is kept. -/
def parse_remove_id (sLine : String) : Nat :=
  (findId sLine.data).getD timer_limit

/-- The erase loop of lines 159-165: drop the first element carrying the
id; none when no element does. -/
def eraseFirst (id : Nat) : List Timer → Option (List Timer)
  | [] => none
  | t :: ts => if t.timer_id == id then some ts else (eraseFirst id ts).map (t :: ·)

/-- CAlarm::remove_timer, lines 152-167, after the id has been parsed.
No branch calls cv_.notify_all(), hence the Bool output is always false. -/
def remove_by_id (id : Nat) (s : AlarmState) : AlarmState × List String × Bool :=
  match eraseFirst id s.timer_list with
  | some l => ({ s with timer_list := l }, ["Removed the timer.\n"], false)
  | none => (s, ["Timer doesn't exist.\n"], false)

/-- CAlarm::remove_timer, lines 152-167. -/
def remove_timer (sLine : String) (s : AlarmState) : AlarmState × List String × Bool :=
  remove_by_id (parse_remove_id sLine) s

/-- CAlarm::list_timers, lines 168-177. -/
def list_timers (now : Int) (s : AlarmState) : List String :=
  (if s.timer_list.isEmpty then ["There are no timers running at the moment.\n"] else [])
    ++ s.timer_list.flatMap fun t =>
      ["Timer: " ++ t.reason ++ ". Timer id: " ++ toString t.timer_id,
        "Expires in: " ++ string_from_secs t.end_time now]

/-- One iteration of CAlarm::loopFunc, lines 178-191, for a given value of
time(0) at the post-wait check: with an empty list only cv_.wait runs; with
a non-empty list, after the timed wait the front is popped and its expiry
message emitted exactly when the front timer has run out. -/
def loopFunc_iter (now : Int) (l : List Timer) : List Timer × List String :=
  match l with
  | [] => ([], [])
  | t :: ts =>
    if t.ran_out now then (ts, ["Timer expired: " ++ t.reason]) else (t :: ts, [])

/-- External mutations of the store: the add and remove commands, each
carrying the wall-clock time at which it runs and the raw command text. -/
inductive Op where
  | add : Int → String → Op
  | remove : String → Op

/-- Effect of one command on the CAlarm state. -/
def step (s : AlarmState) (op : Op) : AlarmState :=
  match op with
  | .add now line => (add_timer now line s).1
  | .remove line => (remove_timer line s).1

/-- The state reached from the initial state (id counter 0, empty list,
lines 195-196) by a sequence of commands. -/
def run (ops : List Op) : AlarmState := ops.foldl step { timer_id := 0, timer_list := [] }

/-- Comparison by end time only. -/
def endLe (a b : Timer) : Prop := a.end_time ≤ b.end_time

/-- An annotated timer: the stored timer paired with ghost data, the
sequence number of the add command that inserted it.  The annotation is
proof bookkeeping only; no operation below reads it. -/
def insertTimerG (p : Timer × Nat) : List (Timer × Nat) → List (Timer × Nat)
  | [] => [p]
  | q :: qs => if p.1.end_time < q.1.end_time then p :: q :: qs else q :: insertTimerG p qs

/-- Left fold of insertTimerG over the input list. -/
def sortAuxG : List (Timer × Nat) → List (Timer × Nat) → List (Timer × Nat)
  | gacc, [] => gacc
  | gacc, x :: xs => sortAuxG (insertTimerG x gacc) xs

/-- sort_timers on annotated timers: the same stable sort, whose comparator
reads only the timer component, as the source comparator reads only the
list elements. -/
def sortG (gl : List (Timer × Nat)) : List (Timer × Nat) := sortAuxG [] gl

/-- eraseFirst on annotated timers: drops the first element whose timer
carries the id. -/
def eraseFirstG (id : Nat) : List (Timer × Nat) → Option (List (Timer × Nat))
  | [] => none
  | p :: ps => if p.1.timer_id == id then some ps else (eraseFirstG id ps).map (p :: ·)

/-- One command on the instrumented state: the AlarmState component evolves
exactly as step evolves it, while the annotated list repeats the same
operations on the same elements -- append then stable sort by end time on a
successful add (stamping the new timer with the next insertion index),
erase of the first id match on remove -- so it always mirrors the order of
the program's timer list. -/
def stepG (g : AlarmState × List (Timer × Nat) × Nat) (op : Op) :
    AlarmState × List (Timer × Nat) × Nat :=
  match op with
  | .add now sLine =>
    ((add_timer now sLine g.1).1,
      if timer_limit ≤ g.1.timer_list.length then (g.2.1, g.2.2)
      else
        match Timer.make sLine ((g.1.timer_id + 1) % 2 ^ 32) now with
        | none => (g.2.1, g.2.2)
        | some t => (sortG (g.2.1 ++ [(t, g.2.2)]), g.2.2 + 1))
  | .remove sLine =>
    ((remove_timer sLine g.1).1,
      (eraseFirstG (parse_remove_id sLine) g.2.1).getD g.2.1, g.2.2)

/-- The instrumented run from the initial state. -/
def runG (ops : List Op) : AlarmState × List (Timer × Nat) × Nat :=
  ops.foldl stepG ({ timer_id := 0, timer_list := [] }, [], 0)

/-- Order on annotated timers: strictly earlier end time first, equal end
times ordered by insertion index -- stable ties. -/
def ghostOrd (a b : Timer × Nat) : Prop :=
  a.1.end_time < b.1.end_time ∨ (a.1.end_time = b.1.end_time ∧ a.2 < b.2)

/-- End-time comparison on annotated timers. -/
def endLeG (a b : Timer × Nat) : Prop := a.1.end_time ≤ b.1.end_time

/-- Invariant of the instrumented run: the annotated list projects to the
program's timer list, it is ghost-ordered, and every stamp is below the
next insertion index. -/
def GhostInv (st : AlarmState) (gl : List (Timer × Nat)) (n : Nat) : Prop :=
  gl.map Prod.fst = st.timer_list ∧ gl.Pairwise ghostOrd ∧ ∀ p ∈ gl, p.2 < n

/-- The factor each duration unit is multiplied by, lines 30-36. -/
def unitFactor (u : Char) : Nat :=
  if u = 's' then 1 else if u = 'm' then 60
  else if u = 'h' then 3600 else if u = 'd' then 86400 else 0

/-- A duration token: the digits of the value followed by the unit letter. -/
def renderTok (p : List Char × Char) : List Char := p.1 ++ [p.2]

/-- A duration text assembled by concatenating tokens. -/
def renderToks : List (List Char × Char) → List Char
  | [] => []
  | p :: ts => p.1 ++ p.2 :: renderToks ts

/-- Well-formed token: a nonempty digit string that fits the fixed-width
capture of its unit (two digits for s, m, h; three for d), with a unit
letter among s, m, h, d. -/
def wfTok (p : List Char × Char) : Prop :=
  (∀ c ∈ p.1, isDig c = true) ∧ 1 ≤ p.1.length ∧
    (if p.2 = 'd' then p.1.length ≤ 3 else p.1.length ≤ 2) ∧
    p.2 ∈ (['s', 'm', 'h', 'd'] : List Char)

instance (p : List Char × Char) : Decidable (wfTok p) := by
  unfold wfTok; infer_instance

/-- The seconds contributed by one token. -/
def tokSeconds (p : List Char × Char) : Nat := natOfDigits p.1 * unitFactor p.2

/-- Concrete timers and stores used to instantiate the theorems. -/
def demoT1 : Timer := { start_time := 0, end_time := 3, timer_id := 1, reason := "a" }

def demoT2 : Timer := { start_time := 0, end_time := 4, timer_id := 2, reason := "b" }

def demoT3 : Timer := { start_time := 0, end_time := 9, timer_id := 3, reason := "c" }

def demoT16 : Timer := { start_time := 0, end_time := 5, timer_id := 16, reason := "x" }

def demoStore1 : AlarmState := { timer_id := 1, timer_list := [demoT1] }

def demoStore3 : AlarmState := { timer_id := 3, timer_list := [demoT1, demoT2, demoT3] }

def demoStore16 : AlarmState := { timer_id := 16, timer_list := List.replicate 16 demoT1 }

def demoStoreWith16 : AlarmState := { timer_id := 16, timer_list := [demoT1, demoT16] }

def demoToks : List (List Char × Char) := [(['3', '0'], 'm'), (['1'], 'h')]

/-! ## Theorems -/

/-- Claim C2: in an iteration of the scheduler loop with a non-empty store,
the front timer is popped and its expiry emitted only when the front timer
has actually run out at the current time; at most one timer is popped and
at most one message emitted per iteration, even when every timer in the
store is overdue. -/
theorem c2_loop_single_pop (now : Int) (t : Timer) (ts : List Timer) :
    ((loopFunc_iter now (t :: ts)).1 ≠ t :: ts ∨ (loopFunc_iter now (t :: ts)).2 ≠ [] →
      t.ran_out now = true ∧ (loopFunc_iter now (t :: ts)).1 = ts ∧
        (loopFunc_iter now (t :: ts)).2 = ["Timer expired: " ++ t.reason]) ∧
    (loopFunc_iter now (t :: ts)).2.length ≤ 1 ∧
    (t :: ts).length ≤ (loopFunc_iter now (t :: ts)).1.length + 1 ∧
    ((∀ u ∈ t :: ts, u.ran_out now = true) →
      (loopFunc_iter now (t :: ts)).1 = ts ∧ (loopFunc_iter now (t :: ts)).2.length = 1) := by
  by_cases h : t.ran_out now = true
  · simp [loopFunc_iter, h]
  · simp only [Bool.not_eq_true] at h
    simp [loopFunc_iter, h]

/-- Witness for C2: with two overdue timers, exactly the first is popped. -/
theorem c2_loop_single_pop_witness :
    (∀ u ∈ [demoT1, demoT2], u.ran_out 10 = true) ∧
      (loopFunc_iter 10 [demoT1, demoT2]).1 = [demoT2] ∧
        (loopFunc_iter 10 [demoT1, demoT2]).2.length = 1 :=
  ⟨by decide, (c2_loop_single_pop 10 demoT1 [demoT2]).2.2.2 (by decide)⟩

/-- Claim C4: an add on a store already holding 16 timers is rejected with
the capacity message, calls no notify, and changes nothing: neither the
timer list nor the id counter. -/
theorem c4_capacity_reject (now : Int) (sLine : String) (s : AlarmState)
    (h : s.timer_list.length = 16) :
    add_timer now sLine s = (s, ["Too many timers running, can't create a new one."], false) := by
  simp [add_timer, timer_limit, h]

/-- Witness for C4 on a concrete full store. -/
theorem c4_capacity_reject_witness :
    demoStore16.timer_list.length = 16 ∧
      add_timer 7 "add 1s x" demoStore16 =
        (demoStore16, ["Too many timers running, can't create a new one."], false) :=
  ⟨by decide, c4_capacity_reject 7 "add 1s x" demoStore16 (by decide)⟩

/-- Claim C7 counterexample: a remove operation that successfully removes a
timer does not signal the wake condition (remove_timer never calls
cv_.notify_all, unlike add_timer line 144). -/
theorem c7_remove_no_notify_cex :
    (remove_timer "remove 1" demoStore1).2.1 = ["Removed the timer.\n"] ∧
      (remove_timer "remove 1" demoStore1).2.2 = false := by
  constructor <;> rfl

/-- Claim C7 amended: no remove operation, whether it removes a timer or
reports that none exists, ever signals the wake condition; the sleeping
loop is not woken by removals. -/
theorem c7_remove_never_notifies (sLine : String) (s : AlarmState) :
    (remove_timer sLine s).2.2 = false := by
  unfold remove_timer remove_by_id
  cases eraseFirst (parse_remove_id sLine) s.timer_list <;> rfl

/-- Claim C9: Timer construction is total exactly for lines of length at
least 4, whose label is substr(4, reason_length): for such lines the
constructor succeeds with that label, for shorter lines the substring start
lies past the end and the error branch (out_of_range) is reached; for the
empty line the unsigned length computation underflows, and for sizes 1-512
it is size minus 1. -/
theorem c9_label_extraction (sLine : String) (id : Nat) (now : Int) :
    (4 ≤ sLine.data.length →
      Timer.make sLine id now = some
        { start_time := now
          end_time := (secs_from_string sLine.data : Int) + now
          timer_id := id
          reason := ⟨(sLine.data.drop 4).take (reason_length sLine.data.length)⟩ }) ∧
    (sLine.data.length < 4 → Timer.make sLine id now = none) ∧
    reason_length 0 = 2 ^ 32 - 1 ∧
    (∀ n : Nat, 1 ≤ n → n ≤ 512 → reason_length n = n - 1) := by
  refine ⟨?_, ?_, ?_, ?_⟩
  · intro h4
    unfold Timer.make substr
    rw [if_neg (Nat.not_lt.mpr h4)]
    rfl
  · intro h4
    unfold Timer.make substr
    rw [if_pos h4]
    rfl
  · decide
  · intro n h1 h2
    have hp64 : (2 : Nat) ^ 64 = 18446744073709551616 := by norm_num
    have hp32 : (2 : Nat) ^ 32 = 4294967296 := by norm_num
    simp only [reason_length, REASON_LENGTH_MAX, hp64, hp32]
    rw [if_neg (by omega)]
    omega

/-- Witness for C9: a 10-character line succeeds with label "5s tea", a
2-character line hits the error branch. -/
theorem c9_label_extraction_witness :
    (4 ≤ "add 5s tea".data.length ∧
      Timer.make "add 5s tea" 1 100 = some
        { start_time := 100
          end_time := (secs_from_string "add 5s tea".data : Int) + 100
          timer_id := 1
          reason := ⟨("add 5s tea".data.drop 4).take (reason_length "add 5s tea".data.length)⟩ }) ∧
    ("ab".data.length < 4 ∧ Timer.make "ab" 1 100 = none) :=
  ⟨⟨by decide, (c9_label_extraction "add 5s tea" 1 100).1 (by decide)⟩,
    ⟨by decide, (c9_label_extraction "ab" 1 100).2.1 (by decide)⟩⟩

/-- The zero-padded field of any value below 60 is exactly two digits. -/
theorem pad2_length_two : ∀ k : Nat, k < 60 → (pad2 (k : Int)).length = 2 := by decide

/-- render_rest on a non-negative difference, in terms of total hours,
minutes and seconds. -/
theorem render_rest_ofNat (r : Nat) :
    render_rest (r : Int) =
      toString ((r / 3600 : Nat) : Int) ++ ":" ++ pad2 ((r % 3600 / 60 : Nat) : Int)
        ++ ":" ++ pad2 ((r % 60 : Nat) : Int) := by
  have h1 : Int.tdiv (r : Int) 3600 = ((r / 3600 : Nat) : Int) := rfl
  have h2 : (r : Int) - ((r / 3600 : Nat) : Int) * 3600 = ((r % 3600 : Nat) : Int) := by omega
  have h3 : Int.tdiv ((r % 3600 : Nat) : Int) 60 = ((r % 3600 / 60 : Nat) : Int) := rfl
  have h4 : ((r % 3600 : Nat) : Int) - ((r % 3600 / 60 : Nat) : Int) * 60
      = ((r % 60 : Nat) : Int) := by omega
  simp only [render_rest, pad2, h1, h2, h3, h4]

/-- Claim C8: for a non-negative remaining time, the formatter renders
hours:minutes:seconds with the total hour count printed plainly (no
zero-padding, may exceed 24) and minutes and seconds always two digits,
zero-padded below 10; 3661 seconds render as "1:01:01" and 90000 seconds
(25 total hours) as "25:00:00". -/
theorem c8_format_hms (e n : Int) (h : 0 ≤ e - n) :
    string_from_secs e n =
      toString (((e - n).toNat / 3600 : Nat) : Int) ++ ":"
        ++ pad2 (((e - n).toNat % 3600 / 60 : Nat) : Int) ++ ":"
        ++ pad2 (((e - n).toNat % 60 : Nat) : Int) ∧
    (pad2 (((e - n).toNat % 3600 / 60 : Nat) : Int)).length = 2 ∧
    (pad2 (((e - n).toNat % 60 : Nat) : Int)).length = 2 ∧
    string_from_secs 3661 0 = "1:01:01" ∧
    string_from_secs 90000 0 = "25:00:00" := by
  refine ⟨?_, ?_, ?_, rfl, rfl⟩
  · have hr : (e - n) = (((e - n).toNat : Nat) : Int) := (Int.toNat_of_nonneg h).symm
    unfold string_from_secs
    rw [hr, render_rest_ofNat]
    simp
  · exact pad2_length_two _ (by omega)
  · exact pad2_length_two _ (by omega)

/-- Witness for C8 at the remaining time 3661. -/
theorem c8_format_hms_witness :
    (0 : Int) ≤ 3661 - 0 ∧ string_from_secs 3661 0 = "1:01:01" :=
  ⟨by decide, (c8_format_hms 3661 0 (by decide)).2.2.2.1⟩

/-- Membership through insertTimer. -/
theorem mem_insertTimer {x t : Timer} :
    ∀ {l : List Timer}, x ∈ insertTimer t l ↔ x = t ∨ x ∈ l := by
  intro l
  induction l with
  | nil => simp [insertTimer]
  | cons u us ih =>
    simp only [insertTimer]
    split_ifs with h
    · simp [List.mem_cons]
    · simp only [List.mem_cons, ih]
      tauto

/-- Inserting an element not earlier than any existing one appends it. -/
theorem insertTimer_all_le {t : Timer} :
    ∀ {l : List Timer}, (∀ x ∈ l, x.end_time ≤ t.end_time) → insertTimer t l = l ++ [t] := by
  intro l
  induction l with
  | nil => intro _; rfl
  | cons u us ih =>
    intro h
    simp only [insertTimer]
    rw [if_neg (not_lt.mpr (h u (List.mem_cons_self u us))),
      ih fun x hx => h x (List.mem_cons_of_mem u hx)]
    rfl

/-- Sorting a list with one appended element inserts that element into the
sort of the rest. -/
theorem sortAux_append (t : Timer) :
    ∀ (l acc : List Timer), sortAux acc (l ++ [t]) = insertTimer t (sortAux acc l) := by
  intro l
  induction l with
  | nil => intro acc; rfl
  | cons x xs ih =>
    intro acc
    simp only [List.cons_append, sortAux]
    exact ih _

/-- The insertion fold leaves an already end-time-sorted list unchanged. -/
theorem sortAux_sorted :
    ∀ (l acc : List Timer), List.Pairwise endLe (acc ++ l) → sortAux acc l = acc ++ l := by
  intro l
  induction l with
  | nil => intro acc _; simp [sortAux]
  | cons x xs ih =>
    intro acc h
    obtain ⟨hacc, hxxs, hcross⟩ := List.pairwise_append.mp h
    have hx : ∀ y ∈ acc, y.end_time ≤ x.end_time :=
      fun y hy => hcross y hy x (List.mem_cons_self x xs)
    simp only [sortAux]
    rw [insertTimer_all_le hx, ih (acc ++ [x]) (by simpa using h)]
    simp

/-- sort_timers is the identity on lists already sorted by end time. -/
theorem sort_timers_sorted_id {l : List Timer} (h : List.Pairwise endLe l) :
    sort_timers l = l := by
  simpa [sort_timers] using sortAux_sorted l [] (by simpa using h)

/-- The ghost order implies the end-time order. -/
theorem ghostOrd_endLeG {a b : Timer × Nat} (h : ghostOrd a b) : endLeG a b := by
  rcases h with h | ⟨h, _⟩
  · exact le_of_lt h
  · exact le_of_eq h

/-- Membership through the annotated insert. -/
theorem mem_insertTimerG {x p : Timer × Nat} :
    ∀ {gl : List (Timer × Nat)}, x ∈ insertTimerG p gl ↔ x = p ∨ x ∈ gl := by
  intro gl
  induction gl with
  | nil => simp [insertTimerG]
  | cons q qs ih =>
    simp only [insertTimerG]
    split_ifs with h
    · simp [List.mem_cons]
    · simp only [List.mem_cons, ih]
      tauto

/-- Inserting an annotated timer not earlier than any existing one appends
it. -/
theorem insertTimerG_all_le {p : Timer × Nat} :
    ∀ {gl : List (Timer × Nat)}, (∀ q ∈ gl, q.1.end_time ≤ p.1.end_time) →
      insertTimerG p gl = gl ++ [p] := by
  intro gl
  induction gl with
  | nil => intro _; rfl
  | cons q qs ih =>
    intro h
    simp only [insertTimerG]
    rw [if_neg (not_lt.mpr (h q (List.mem_cons_self q qs))),
      ih fun x hx => h x (List.mem_cons_of_mem q hx)]
    rfl

/-- Sorting an annotated list with one appended element inserts it into
the sort of the rest. -/
theorem sortAuxG_append (p : Timer × Nat) :
    ∀ (gl gacc : List (Timer × Nat)),
      sortAuxG gacc (gl ++ [p]) = insertTimerG p (sortAuxG gacc gl) := by
  intro gl
  induction gl with
  | nil => intro gacc; rfl
  | cons x xs ih =>
    intro gacc
    simp only [List.cons_append, sortAuxG]
    exact ih _

/-- The annotated insertion fold leaves an end-time-sorted list unchanged. -/
theorem sortAuxG_sorted :
    ∀ (gl gacc : List (Timer × Nat)), List.Pairwise endLeG (gacc ++ gl) →
      sortAuxG gacc gl = gacc ++ gl := by
  intro gl
  induction gl with
  | nil => intro gacc _; simp [sortAuxG]
  | cons x xs ih =>
    intro gacc h
    obtain ⟨hacc, hxxs, hcross⟩ := List.pairwise_append.mp h
    have hx : ∀ y ∈ gacc, y.1.end_time ≤ x.1.end_time :=
      fun y hy => hcross y hy x (List.mem_cons_self x xs)
    simp only [sortAuxG]
    rw [insertTimerG_all_le hx, ih (gacc ++ [x]) (by simpa using h)]
    simp

/-- sortG is the identity on annotated lists already sorted by end time. -/
theorem sortG_sorted_id {gl : List (Timer × Nat)} (h : List.Pairwise endLeG gl) :
    sortG gl = gl := by
  simpa [sortG] using sortAuxG_sorted gl [] (by simpa using h)

/-- Inserting a timer stamped later than every present stamp preserves the
ghost order: it lands after all equal end times, before all later ones. -/
theorem pairwise_insertTimerG {p : Timer × Nat} :
    ∀ {gl : List (Timer × Nat)}, List.Pairwise ghostOrd gl → (∀ q ∈ gl, q.2 < p.2) →
      List.Pairwise ghostOrd (insertTimerG p gl) := by
  intro gl
  induction gl with
  | nil => intro _ _; simp [insertTimerG]
  | cons u us ih =>
    intro hp hst
    obtain ⟨hu, hus⟩ := List.pairwise_cons.mp hp
    simp only [insertTimerG]
    split_ifs with hlt
    · refine List.Pairwise.cons ?_ hp
      intro y hy
      rcases List.mem_cons.mp hy with rfl | hy
      · exact Or.inl hlt
      · exact Or.inl (lt_of_lt_of_le hlt (ghostOrd_endLeG (hu y hy)))
    · refine List.Pairwise.cons ?_ (ih hus fun x hx => hst x (List.mem_cons_of_mem u hx))
      intro y hy
      rcases mem_insertTimerG.mp hy with rfl | hy
      · rcases lt_or_eq_of_le (not_lt.mp hlt) with h | h
        · exact Or.inl h
        · exact Or.inr ⟨h, hst u (List.mem_cons_self u us)⟩
      · exact hu y hy

/-- The annotated insert projects to the plain insert. -/
theorem insertTimerG_fst (p : Timer × Nat) :
    ∀ gl : List (Timer × Nat),
      (insertTimerG p gl).map Prod.fst = insertTimer p.1 (gl.map Prod.fst) := by
  intro gl
  induction gl with
  | nil => rfl
  | cons q qs ih =>
    simp only [insertTimerG, List.map_cons, insertTimer]
    split_ifs with h
    · simp
    · simp [ih]

/-- The annotated erase projects to the plain erase. -/
theorem eraseFirstG_fst (id : Nat) :
    ∀ gl : List (Timer × Nat),
      eraseFirst id (gl.map Prod.fst) =
        (eraseFirstG id gl).map (fun l => l.map Prod.fst) := by
  intro gl
  induction gl with
  | nil => rfl
  | cons q qs ih =>
    simp only [List.map_cons, eraseFirst, eraseFirstG]
    split_ifs with h
    · rfl
    · cases he : eraseFirstG id qs with
      | none =>
        rw [he] at ih
        simp [ih]
      | some l'' =>
        rw [he] at ih
        simp [ih]

/-- A successful annotated erase yields a sublist. -/
theorem eraseFirstG_sublist {id : Nat} :
    ∀ {gl gl' : List (Timer × Nat)}, eraseFirstG id gl = some gl' → gl'.Sublist gl := by
  intro gl
  induction gl with
  | nil => intro gl' h; simp [eraseFirstG] at h
  | cons q qs ih =>
    intro gl' h
    simp only [eraseFirstG] at h
    split_ifs at h with hbeq
    · obtain rfl : qs = gl' := by simpa using h
      exact List.sublist_cons_self q qs
    · rcases Option.map_eq_some'.mp h with ⟨l'', h'', rfl⟩
      exact (ih h'').cons₂ q

/-- The capacity branch of add_timer, line 137-140. -/
theorem add_timer_eq_cap {now : Int} {sLine : String} {s : AlarmState}
    (h : timer_limit ≤ s.timer_list.length) :
    add_timer now sLine s = (s, ["Too many timers running, can't create a new one."], false) := by
  unfold add_timer
  rw [if_pos h]

/-- The throwing branch of add_timer: the constructor fails, the counter
has already been incremented (modulo 2^32). -/
theorem add_timer_eq_none {now : Int} {sLine : String} {s : AlarmState}
    (h : ¬ timer_limit ≤ s.timer_list.length)
    (hmk : Timer.make sLine ((s.timer_id + 1) % 2 ^ 32) now = none) :
    add_timer now sLine s = ({ s with timer_id := (s.timer_id + 1) % 2 ^ 32 }, [], false) := by
  unfold add_timer
  rw [if_neg h, hmk]

/-- The successful branch of add_timer, lines 141-144. -/
theorem add_timer_eq_some {now : Int} {sLine : String} {s : AlarmState} {t : Timer}
    (h : ¬ timer_limit ≤ s.timer_list.length)
    (hmk : Timer.make sLine ((s.timer_id + 1) % 2 ^ 32) now = some t) :
    add_timer now sLine s =
      ({ timer_id := (s.timer_id + 1) % 2 ^ 32,
          timer_list := sort_timers (s.timer_list ++ [t]) },
        ["Timer added."], true) := by
  unfold add_timer
  rw [if_neg h, hmk]

/-- Decomposition of a successful erase: the list splits at the first
element carrying the id, and the result drops exactly that element. -/
theorem eraseFirst_some {id : Nat} :
    ∀ {l l' : List Timer}, eraseFirst id l = some l' →
      ∃ l₁ t l₂, l = l₁ ++ t :: l₂ ∧ t.timer_id = id ∧ (∀ u ∈ l₁, u.timer_id ≠ id) ∧
        l' = l₁ ++ l₂ := by
  intro l
  induction l with
  | nil => intro l' h; simp [eraseFirst] at h
  | cons t ts ih =>
    intro l' h
    simp only [eraseFirst] at h
    split_ifs at h with hbeq
    · exact ⟨[], t, ts, by simp, beq_iff_eq.mp hbeq, by simp, by simpa using h.symm⟩
    · rcases Option.map_eq_some'.mp h with ⟨l'', h'', rfl⟩
      rcases ih h'' with ⟨l₁, u, l₂, rfl, hu, hl₁, rfl⟩
      refine ⟨t :: l₁, u, l₂, rfl, hu, ?_, rfl⟩
      intro x hx
      rcases List.mem_cons.mp hx with rfl | hx
      · exact fun hh => hbeq (beq_iff_eq.mpr hh)
      · exact hl₁ x hx

/-- eraseFirst finds nothing exactly when no element carries the id. -/
theorem eraseFirst_none {id : Nat} :
    ∀ {l : List Timer}, eraseFirst id l = none ↔ ∀ t ∈ l, t.timer_id ≠ id := by
  intro l
  induction l with
  | nil => simp [eraseFirst]
  | cons t ts ih =>
    simp only [eraseFirst]
    split_ifs with hbeq
    · simp only [reduceCtorEq, false_iff]
      intro hall
      exact hall t (List.mem_cons_self t ts) (beq_iff_eq.mp hbeq)
    · simp only [Option.map_eq_none', ih, List.mem_cons]
      constructor
      · intro hall x hx
        rcases hx with rfl | hx
        · exact fun hh => hbeq (beq_iff_eq.mpr hh)
        · exact hall x hx
      · intro hall x hx
        exact hall x (Or.inr hx)

/-- A member with the requested id makes eraseFirst succeed. -/
theorem eraseFirst_isSome {id : Nat} {l : List Timer} (h : ∃ t ∈ l, t.timer_id = id) :
    ∃ l', eraseFirst id l = some l' := by
  cases he : eraseFirst id l with
  | none =>
    rcases h with ⟨t, ht, hid⟩
    exact absurd hid (eraseFirst_none.mp he t ht)
  | some l' => exact ⟨l', rfl⟩

/-- The not-found branch of remove_by_id, line 166. -/
theorem remove_by_id_eq_none {id : Nat} {s : AlarmState}
    (he : eraseFirst id s.timer_list = none) :
    remove_by_id id s = (s, ["Timer doesn't exist.\n"], false) := by
  unfold remove_by_id
  rw [he]

/-- The erasing branch of remove_by_id, lines 160-163. -/
theorem remove_by_id_eq_some {id : Nat} {s : AlarmState} {l : List Timer}
    (he : eraseFirst id s.timer_list = some l) :
    remove_by_id id s = ({ s with timer_list := l }, ["Removed the timer.\n"], false) := by
  unfold remove_by_id
  rw [he]

/-- The instrumented step drives the program state exactly as step does. -/
theorem stepG_fst (g : AlarmState × List (Timer × Nat) × Nat) (op : Op) :
    (stepG g op).1 = step g.1 op := by
  cases op <;> rfl

/-- The instrumented run and the program run reach the same state. -/
theorem runG_fst (ops : List Op) : (runG ops).1 = run ops := by
  suffices h : ∀ (ops : List Op) (g : AlarmState × List (Timer × Nat) × Nat),
      (ops.foldl stepG g).1 = ops.foldl step g.1 by
    exact h ops _
  intro ops
  induction ops with
  | nil => intro g; rfl
  | cons op ops ih =>
    intro g
    simp only [List.foldl_cons]
    rw [ih (stepG g op), stepG_fst]

/-- One command preserves the ghost invariant. -/
theorem ghostInv_step (st : AlarmState) (gl : List (Timer × Nat)) (n : Nat) (op : Op)
    (h : GhostInv st gl n) :
    GhostInv (stepG (st, gl, n) op).1 (stepG (st, gl, n) op).2.1
      (stepG (st, gl, n) op).2.2 := by
  obtain ⟨hfst, hpw, hstamp⟩ := h
  cases op with
  | add now sLine =>
    by_cases hcap : timer_limit ≤ st.timer_list.length
    · simp only [stepG, if_pos hcap]
      rw [add_timer_eq_cap hcap]
      exact ⟨hfst, hpw, hstamp⟩
    · cases hmk : Timer.make sLine ((st.timer_id + 1) % 2 ^ 32) now with
      | none =>
        simp only [stepG, if_neg hcap, hmk]
        rw [add_timer_eq_none hcap hmk]
        exact ⟨hfst, hpw, hstamp⟩
      | some t =>
        simp only [stepG, if_neg hcap, hmk]
        rw [add_timer_eq_some hcap hmk]
        dsimp only
        have hsortedG : List.Pairwise endLeG gl := hpw.imp fun hab => ghostOrd_endLeG hab
        have hplain : List.Pairwise endLe st.timer_list := by
          rw [← hfst]
          exact List.pairwise_map.mpr hsortedG
        have hG : sortG (gl ++ [(t, n)]) = insertTimerG (t, n) gl := by
          rw [show sortG (gl ++ [(t, n)]) = insertTimerG (t, n) (sortG gl) from
            sortAuxG_append (t, n) gl [], sortG_sorted_id hsortedG]
        have hsort : sort_timers (st.timer_list ++ [t]) = insertTimer t st.timer_list := by
          rw [show sort_timers (st.timer_list ++ [t])
              = insertTimer t (sort_timers st.timer_list) from
            sortAux_append t st.timer_list [], sort_timers_sorted_id hplain]
        refine ⟨?_, ?_, ?_⟩
        · rw [hG, insertTimerG_fst, hfst, hsort]
        · rw [hG]
          exact pairwise_insertTimerG hpw fun q hq => hstamp q hq
        · intro q hq
          rw [hG] at hq
          rcases mem_insertTimerG.mp hq with rfl | hq
          · exact Nat.lt_succ_self n
          · exact Nat.lt_succ_of_lt (hstamp q hq)
  | remove sLine =>
    simp only [stepG]
    have hcomm := eraseFirstG_fst (parse_remove_id sLine) gl
    rw [hfst] at hcomm
    cases he : eraseFirst (parse_remove_id sLine) st.timer_list with
    | none =>
      rw [he] at hcomm
      have heG : eraseFirstG (parse_remove_id sLine) gl = none :=
        Option.map_eq_none'.mp hcomm.symm
      rw [show remove_timer sLine st = remove_by_id (parse_remove_id sLine) st from rfl,
        remove_by_id_eq_none he, heG]
      exact ⟨hfst, hpw, hstamp⟩
    | some l' =>
      rw [he] at hcomm
      rcases Option.map_eq_some'.mp hcomm.symm with ⟨gl', hgl', hmapfst⟩
      rw [show remove_timer sLine st = remove_by_id (parse_remove_id sLine) st from rfl,
        remove_by_id_eq_some he, hgl']
      refine ⟨hmapfst, ?_, ?_⟩
      · exact hpw.sublist (eraseFirstG_sublist hgl')
      · intro q hq
        exact hstamp q ((eraseFirstG_sublist hgl').mem hq)

/-- The ghost invariant holds along the instrumented run. -/
theorem ghostInv_runG (ops : List Op) :
    GhostInv (runG ops).1 (runG ops).2.1 (runG ops).2.2 := by
  suffices h : ∀ (ops : List Op) (g : AlarmState × List (Timer × Nat) × Nat),
      GhostInv g.1 g.2.1 g.2.2 →
        GhostInv (ops.foldl stepG g).1 (ops.foldl stepG g).2.1 (ops.foldl stepG g).2.2 by
    exact h ops _ ⟨rfl, List.Pairwise.nil, by simp⟩
  intro ops
  induction ops with
  | nil => intro g hg; exact hg
  | cons op ops ih =>
    intro g hg
    simp only [List.foldl_cons]
    refine ih _ ?_
    obtain ⟨st, gl, n⟩ := g
    exact ghostInv_step st gl n op hg

/-- Claim C1: after any sequence of add and remove commands starting from
the empty store, the timer list is always sorted in non-decreasing
end_time order; moreover, annotating each stored timer with the sequence
number of the add command that inserted it (the instrumented run runG,
whose program-state component coincides with run), timers of equal
end_time always stand in strictly increasing insertion order: stable ties.
The annotation is ghost data: the program's wrapping unsigned id counter
is not used to witness the order. -/
theorem c1_store_sorted (ops : List Op) :
    (run ops).timer_list.Pairwise endLe ∧
    (runG ops).1 = run ops ∧
    (runG ops).2.1.map Prod.fst = (run ops).timer_list ∧
    (runG ops).2.1.Pairwise ghostOrd := by
  obtain ⟨hfst, hpw, _⟩ := ghostInv_runG ops
  have hrun := runG_fst ops
  rw [hrun] at hfst
  refine ⟨?_, hrun, hfst, hpw⟩
  rw [← hfst]
  exact List.pairwise_map.mpr (hpw.imp fun hab => ghostOrd_endLeG hab)

/-- Claim C5: removing a present id deletes exactly the first timer with
that id found by linear scan, shrinks the store by exactly one, keeps the
remaining timers in their relative order (the result is the same list with
one element dropped, no re-sort), and -- under the distinct-id invariant --
leaves the id absent; removing an absent id leaves the store unchanged and
reports that the timer does not exist. -/
theorem c5_remove_first_match (s : AlarmState) (id : Nat) :
    ((∃ t ∈ s.timer_list, t.timer_id = id) →
      ∃ l₁ t l₂, s.timer_list = l₁ ++ t :: l₂ ∧ t.timer_id = id ∧
        (∀ u ∈ l₁, u.timer_id ≠ id) ∧
        remove_by_id id s =
          ({ s with timer_list := l₁ ++ l₂ }, ["Removed the timer.\n"], false) ∧
        (l₁ ++ l₂).length + 1 = s.timer_list.length ∧
        ((s.timer_list.Pairwise fun a b => a.timer_id ≠ b.timer_id) →
          ∀ u ∈ l₁ ++ l₂, u.timer_id ≠ id)) ∧
    ((∀ t ∈ s.timer_list, t.timer_id ≠ id) →
      remove_by_id id s = (s, ["Timer doesn't exist.\n"], false)) := by
  constructor
  · intro hmem
    rcases eraseFirst_isSome hmem with ⟨l', he⟩
    rcases eraseFirst_some he with ⟨l₁, t, l₂, hdec, hti, hl₁, rfl⟩
    refine ⟨l₁, t, l₂, hdec, hti, hl₁, ?_, ?_, ?_⟩
    · unfold remove_by_id
      rw [he]
    · rw [hdec]
      simp
      omega
    · intro hpw u hu
      rw [hdec] at hpw
      rcases List.mem_append.mp hu with hu | hu
      · exact hl₁ u hu
      · have hne := (List.pairwise_cons.mp (List.pairwise_append.mp hpw).2.1).1 u hu
        intro hc
        exact hne (hti.trans hc.symm)
  · intro hall
    unfold remove_by_id
    rw [eraseFirst_none.mpr hall]

/-- Witness for C5: removing id 2 from a three-timer store drops exactly
the middle timer; removing the absent id 9 changes nothing. -/
theorem c5_remove_first_match_witness :
    ((∃ t ∈ demoStore3.timer_list, t.timer_id = 2) ∧
      (∃ l₁ t l₂, demoStore3.timer_list = l₁ ++ t :: l₂ ∧ t.timer_id = 2 ∧
        (∀ u ∈ l₁, u.timer_id ≠ 2) ∧
        remove_by_id 2 demoStore3 =
          ({ demoStore3 with timer_list := l₁ ++ l₂ }, ["Removed the timer.\n"], false) ∧
        (l₁ ++ l₂).length + 1 = demoStore3.timer_list.length ∧
        ((demoStore3.timer_list.Pairwise fun a b => a.timer_id ≠ b.timer_id) →
          ∀ u ∈ l₁ ++ l₂, u.timer_id ≠ 2))) ∧
    ((∀ t ∈ demoStore3.timer_list, t.timer_id ≠ 9) ∧
      remove_by_id 9 demoStore3 = (demoStore3, ["Timer doesn't exist.\n"], false)) :=
  ⟨⟨by decide, (c5_remove_first_match demoStore3 2).1 (by decide)⟩,
    ⟨by decide, (c5_remove_first_match demoStore3 9).2 (by decide)⟩⟩

/-- A text without digit characters never matches the id pattern. -/
theorem findId_none : ∀ l : List Char, (∀ c ∈ l, isDig c = false) → findId l = none := by
  intro l
  induction l with
  | nil => intro _; rfl
  | cons c cs ih =>
    intro h
    simp only [findId, h c (List.mem_cons_self c cs), Bool.false_eq_true, if_false]
    exact ih fun x hx => h x (List.mem_cons_of_mem c hx)

/-- Claim C10: when the remove command text contains no digit, the target
id stays at its initial value timer_limit_ = 16, so a store containing a
timer with id 16 has that timer removed and success reported instead of
TimerNotFound. -/
theorem c10_remove_default_id (s : AlarmState) (sLine : String)
    (hnd : ∀ c ∈ sLine.data, isDig c = false)
    (hmem : ∃ t ∈ s.timer_list, t.timer_id = 16) :
    parse_remove_id sLine = timer_limit ∧
    (remove_timer sLine s).2.1 = ["Removed the timer.\n"] ∧
    (remove_timer sLine s).1.timer_list.length + 1 = s.timer_list.length := by
  have hp : parse_remove_id sLine = timer_limit := by
    unfold parse_remove_id
    rw [findId_none _ hnd]
    rfl
  rcases eraseFirst_isSome hmem with ⟨l', he⟩
  have hrm : remove_timer sLine s = ({ s with timer_list := l' }, ["Removed the timer.\n"], false) := by
    unfold remove_timer remove_by_id
    rw [hp, show (timer_limit : Nat) = 16 from rfl, he]
  rcases eraseFirst_some he with ⟨l₁, t, l₂, hdec, _, _, rfl⟩
  refine ⟨hp, by rw [hrm], ?_⟩
  rw [hrm, hdec]
  simp
  omega

/-- Witness for C10: a digit-free remove text deletes the id-16 timer. -/
theorem c10_remove_default_id_witness :
    (∀ c ∈ "remove please".data, isDig c = false) ∧
      (∃ t ∈ demoStoreWith16.timer_list, t.timer_id = 16) ∧
      parse_remove_id "remove please" = timer_limit ∧
      (remove_timer "remove please" demoStoreWith16).2.1 = ["Removed the timer.\n"] ∧
      (remove_timer "remove please" demoStoreWith16).1.timer_list.length + 1 =
        demoStoreWith16.timer_list.length :=
  ⟨by decide, by decide,
    c10_remove_default_id demoStoreWith16 "remove please" (by decide) (by decide)⟩

/-- A digit character differs from a non-digit character. -/
theorem beq_false_of_dig {x u : Char} (hx : isDig x = true) (hu : isDig u = false) :
    (x == u) = false := by
  refine beq_eq_false_iff_ne.mpr fun he => ?_
  rw [he, hu] at hx
  cases hx

/-- Digit characters code between 48 and 57. -/
theorem isDig_toNat {c : Char} (h : isDig c = true) : 48 ≤ c.toNat ∧ c.toNat ≤ 57 := by
  simpa [isDig] using h

/-- A single character never matches digits-then-unit. -/
theorem findUnit2_one (u c1 : Char) : findUnit2 u [c1] = none := by
  simp [findUnit2]

/-- Unfolding of the two-character search. -/
theorem findUnit2_two (u c1 c2 : Char) :
    findUnit2 u [c1, c2] =
      if isDig c1 then (if c2 == u then some (c1.toNat - 48) else findUnit2 u [c2])
      else findUnit2 u [c2] := rfl

/-- Unfolding of the search on three or more characters. -/
theorem findUnit2_big (u c1 c2 c3 : Char) (l : List Char) :
    findUnit2 u (c1 :: c2 :: c3 :: l) =
      if isDig c1 then
        (if isDig c2 && c3 == u then some (10 * (c1.toNat - 48) + (c2.toNat - 48))
         else if c2 == u then some (c1.toNat - 48)
         else findUnit2 u (c2 :: c3 :: l))
      else findUnit2 u (c2 :: c3 :: l) := rfl

/-- A single character never matches the day pattern. -/
theorem findUnit3_one (u c1 : Char) : findUnit3 u [c1] = none := by
  simp [findUnit3]

/-- Unfolding of the day search on two characters. -/
theorem findUnit3_two (u c1 c2 : Char) :
    findUnit3 u [c1, c2] =
      if isDig c1 then (if c2 == u then some (c1.toNat - 48) else findUnit3 u [c2])
      else findUnit3 u [c2] := rfl

/-- Unfolding of the day search on three characters. -/
theorem findUnit3_three (u c1 c2 c3 : Char) :
    findUnit3 u [c1, c2, c3] =
      if isDig c1 then
        (if isDig c2 && c3 == u then some (10 * (c1.toNat - 48) + (c2.toNat - 48))
         else if c2 == u then some (c1.toNat - 48)
         else findUnit3 u [c2, c3])
      else findUnit3 u [c2, c3] := rfl

/-- Unfolding of the day search on four or more characters. -/
theorem findUnit3_big (u c1 c2 c3 c4 : Char) (l : List Char) :
    findUnit3 u (c1 :: c2 :: c3 :: c4 :: l) =
      if isDig c1 then
        (if isDig c2 && (isDig c3 && c4 == u) then
          some (100 * (c1.toNat - 48) + (10 * (c2.toNat - 48) + (c3.toNat - 48)))
         else if isDig c2 && c3 == u then some (10 * (c1.toNat - 48) + (c2.toNat - 48))
         else if c2 == u then some (c1.toNat - 48)
         else findUnit3 u (c2 :: c3 :: c4 :: l))
      else findUnit3 u (c2 :: c3 :: c4 :: l) := rfl

/-- The digit fold with an arbitrary accumulator. -/
theorem natOfDigits_aux : ∀ (l : List Char) (a : Nat),
    l.foldl (fun b c => 10 * b + (c.toNat - 48)) a = a * 10 ^ l.length + natOfDigits l := by
  intro l
  induction l with
  | nil => intro a; simp [natOfDigits]
  | cons c cs ih =>
    intro a
    have hhd : natOfDigits (c :: cs) = (c.toNat - 48) * 10 ^ cs.length + natOfDigits cs := by
      show List.foldl (fun b c => 10 * b + (c.toNat - 48)) 0 (c :: cs) = _
      rw [List.foldl_cons, ih]
      ring
    simp only [List.foldl_cons, List.length_cons]
    rw [ih, hhd]
    ring

/-- Peeling the leading digit off the captured value. -/
theorem natOfDigits_cons (c : Char) (l : List Char) :
    natOfDigits (c :: l) = (c.toNat - 48) * 10 ^ l.length + natOfDigits l := by
  show List.foldl (fun b c => 10 * b + (c.toNat - 48)) 0 (c :: l) = _
  rw [List.foldl_cons, natOfDigits_aux]
  ring

/-- The value of a digit string is below 10 to its length. -/
theorem natOfDigits_lt : ∀ l : List Char, (∀ c ∈ l, isDig c = true) →
    natOfDigits l < 10 ^ l.length := by
  intro l
  induction l with
  | nil => intro _; simp [natOfDigits]
  | cons c cs ih =>
    intro h
    rw [natOfDigits_cons]
    have hc : c.toNat - 48 ≤ 9 := by
      have := isDig_toNat (h c (List.mem_cons_self c cs))
      omega
    have hcs : natOfDigits cs < 10 ^ cs.length := ih fun x hx => h x (List.mem_cons_of_mem c hx)
    have hpow : 0 < (10 : Nat) ^ cs.length := pow_pos (by norm_num) _
    simp only [List.length_cons, pow_succ]
    nlinarith

/-- Dropping the leading digit does not change the value modulo a divisor
of 10 to the remaining length. -/
theorem natOfDigits_cons_mod (c : Char) (l : List Char) (k : Nat)
    (hdvd : k ∣ 10 ^ l.length) :
    natOfDigits (c :: l) % k = natOfDigits l % k := by
  obtain ⟨m, hm⟩ := hdvd
  rw [natOfDigits_cons, show (c.toNat - 48) * 10 ^ l.length = k * ((c.toNat - 48) * m) from by
    rw [hm]; ring]
  exact Nat.mul_add_mod k _ _

/-- When the unit letter does not occur in the text, the two-digit pattern
finds nothing. -/
theorem findUnit2_none (u : Char) : ∀ l : List Char, u ∉ l → findUnit2 u l = none := by
  intro l
  induction l with
  | nil => intro _; rfl
  | cons c1 rest ih =>
    intro h
    obtain ⟨h1, h2⟩ : u ≠ c1 ∧ u ∉ rest := by simpa [List.mem_cons, not_or] using h
    cases rest with
    | nil => exact findUnit2_one u c1
    | cons c2 rest2 =>
      obtain ⟨h3, h4⟩ : u ≠ c2 ∧ u ∉ rest2 := by simpa [List.mem_cons, not_or] using h2
      have hc2 : (c2 == u) = false := beq_eq_false_iff_ne.mpr (Ne.symm h3)
      cases rest2 with
      | nil =>
        rw [findUnit2_two]
        simp only [hc2, Bool.false_eq_true, if_false, ite_self]
        exact ih h2
      | cons c3 rest3 =>
        obtain ⟨h5, _⟩ : u ≠ c3 ∧ u ∉ rest3 := by simpa [List.mem_cons, not_or] using h4
        have hc3 : (c3 == u) = false := beq_eq_false_iff_ne.mpr (Ne.symm h5)
        rw [findUnit2_big]
        simp only [hc3, Bool.and_false, hc2, Bool.false_eq_true, if_false, ite_self]
        exact ih h2

/-- When the unit letter does not occur in the text, the three-digit day
pattern finds nothing. -/
theorem findUnit3_none (u : Char) : ∀ l : List Char, u ∉ l → findUnit3 u l = none := by
  intro l
  induction l with
  | nil => intro _; rfl
  | cons c1 rest ih =>
    intro h
    obtain ⟨h1, h2⟩ : u ≠ c1 ∧ u ∉ rest := by simpa [List.mem_cons, not_or] using h
    cases rest with
    | nil => exact findUnit3_one u c1
    | cons c2 rest2 =>
      obtain ⟨h3, h4⟩ : u ≠ c2 ∧ u ∉ rest2 := by simpa [List.mem_cons, not_or] using h2
      have hc2 : (c2 == u) = false := beq_eq_false_iff_ne.mpr (Ne.symm h3)
      cases rest2 with
      | nil =>
        rw [findUnit3_two]
        simp only [hc2, Bool.false_eq_true, if_false, ite_self]
        exact ih h2
      | cons c3 rest3 =>
        obtain ⟨h5, h6⟩ : u ≠ c3 ∧ u ∉ rest3 := by simpa [List.mem_cons, not_or] using h4
        have hc3 : (c3 == u) = false := beq_eq_false_iff_ne.mpr (Ne.symm h5)
        cases rest3 with
        | nil =>
          rw [findUnit3_three]
          simp only [hc3, Bool.and_false, hc2, Bool.false_eq_true, if_false, ite_self]
          exact ih h2
        | cons c4 rest4 =>
          obtain ⟨h7, _⟩ : u ≠ c4 ∧ u ∉ rest4 := by simpa [List.mem_cons, not_or] using h6
          have hc4 : (c4 == u) = false := beq_eq_false_iff_ne.mpr (Ne.symm h7)
          rw [findUnit3_big]
          simp only [hc4, Bool.and_false, hc3, hc2, Bool.false_eq_true, if_false, ite_self]
          exact ih h2

/-- The two-digit search skips over a leading digits-then-other-unit token:
no match can start inside it, since its digits are followed by a letter
different from the searched unit. -/
theorem findUnit2_skip (u w : Char) (hu : isDig u = false) (hw : isDig w = false)
    (hwu : (w == u) = false) :
    ∀ ds : List Char, (∀ c ∈ ds, isDig c = true) →
      ∀ l, findUnit2 u (ds ++ w :: l) = findUnit2 u l := by
  intro ds
  induction ds with
  | nil =>
    intro _ l
    simp only [List.nil_append]
    cases l with
    | nil => rw [findUnit2_one]; rfl
    | cons b l2 =>
      cases l2 with
      | nil => rw [findUnit2_two]; simp only [hw, Bool.false_eq_true, if_false]
      | cons c l3 => rw [findUnit2_big]; simp only [hw, Bool.false_eq_true, if_false]
  | cons a ds' ih =>
    intro hds l
    have ha : isDig a = true := hds a (List.mem_cons_self a ds')
    have hds' : ∀ c ∈ ds', isDig c = true := fun c hc => hds c (List.mem_cons_of_mem a hc)
    simp only [List.cons_append]
    cases ds' with
    | nil =>
      simp only [List.nil_append]
      cases l with
      | nil =>
        rw [findUnit2_two]
        simp only [ha, if_true, hwu, Bool.false_eq_true, if_false]
        rw [findUnit2_one]
        rfl
      | cons b l2 =>
        rw [findUnit2_big]
        simp only [ha, if_true, hw, Bool.false_and, hwu, Bool.false_eq_true, if_false]
        simpa using ih (by simp) (b :: l2)
    | cons b ds'' =>
      have hb : isDig b = true := hds' b (List.mem_cons_self b ds'')
      have hbu : (b == u) = false := beq_false_of_dig hb hu
      simp only [List.cons_append]
      cases ds'' with
      | nil =>
        simp only [List.nil_append]
        rw [findUnit2_big]
        simp only [ha, if_true, hwu, Bool.and_false, hbu, Bool.false_eq_true, if_false]
        simpa using ih hds' l
      | cons c ds''' =>
        have hc : isDig c = true := hds' c (List.mem_cons_of_mem b (List.mem_cons_self c ds'''))
        have hcu : (c == u) = false := beq_false_of_dig hc hu
        simp only [List.cons_append]
        rw [findUnit2_big]
        simp only [ha, if_true, hcu, Bool.and_false, hbu, Bool.false_eq_true, if_false]
        simpa [List.cons_append] using ih hds' l

/-- The day search skips over a leading digits-then-other-unit token. -/
theorem findUnit3_skip (u w : Char) (hu : isDig u = false) (hw : isDig w = false)
    (hwu : (w == u) = false) :
    ∀ ds : List Char, (∀ c ∈ ds, isDig c = true) →
      ∀ l, findUnit3 u (ds ++ w :: l) = findUnit3 u l := by
  intro ds
  induction ds with
  | nil =>
    intro _ l
    simp only [List.nil_append]
    cases l with
    | nil => rw [findUnit3_one]; rfl
    | cons b l2 =>
      cases l2 with
      | nil => rw [findUnit3_two]; simp only [hw, Bool.false_eq_true, if_false]
      | cons c l3 =>
        cases l3 with
        | nil => rw [findUnit3_three]; simp only [hw, Bool.false_eq_true, if_false]
        | cons e l4 => rw [findUnit3_big]; simp only [hw, Bool.false_eq_true, if_false]
  | cons a ds' ih =>
    intro hds l
    have ha : isDig a = true := hds a (List.mem_cons_self a ds')
    have hds' : ∀ c ∈ ds', isDig c = true := fun c hc => hds c (List.mem_cons_of_mem a hc)
    simp only [List.cons_append]
    cases ds' with
    | nil =>
      simp only [List.nil_append]
      cases l with
      | nil =>
        rw [findUnit3_two]
        simp only [ha, if_true, hwu, Bool.false_eq_true, if_false]
        rw [findUnit3_one]
        rfl
      | cons b l2 =>
        cases l2 with
        | nil =>
          rw [findUnit3_three]
          simp only [ha, if_true, hw, Bool.false_and, hwu, Bool.false_eq_true, if_false]
          simpa using ih (by simp) [b]
        | cons c l3 =>
          rw [findUnit3_big]
          simp only [ha, if_true, hw, Bool.false_and, Bool.and_false, hwu,
            Bool.false_eq_true, if_false]
          simpa using ih (by simp) (b :: c :: l3)
    | cons b ds'' =>
      have hb : isDig b = true := hds' b (List.mem_cons_self b ds'')
      have hbu : (b == u) = false := beq_false_of_dig hb hu
      simp only [List.cons_append]
      cases ds'' with
      | nil =>
        simp only [List.nil_append]
        cases l with
        | nil =>
          rw [findUnit3_three]
          simp only [ha, if_true, hwu, Bool.and_false, hbu, Bool.false_eq_true, if_false]
          simpa using ih hds' []
        | cons c l2 =>
          rw [findUnit3_big]
          simp only [ha, if_true, hw, Bool.false_and, Bool.and_false, hwu, hbu,
            Bool.false_eq_true, if_false]
          simpa using ih hds' (c :: l2)
      | cons c ds''' =>
        have hc : isDig c = true := hds' c (List.mem_cons_of_mem b (List.mem_cons_self c ds'''))
        have hcu : (c == u) = false := beq_false_of_dig hc hu
        simp only [List.cons_append]
        cases ds''' with
        | nil =>
          simp only [List.nil_append]
          rw [findUnit3_big]
          simp only [ha, if_true, hwu, Bool.and_false, hcu, hbu, Bool.false_eq_true, if_false]
          simpa [List.cons_append] using ih hds' l
        | cons e ds'''' =>
          have he : isDig e = true := hds' e
            (List.mem_cons_of_mem b (List.mem_cons_of_mem c (List.mem_cons_self e ds'''')))
          have heu : (e == u) = false := beq_false_of_dig he hu
          simp only [List.cons_append]
          rw [findUnit3_big]
          simp only [ha, if_true, heu, Bool.and_false, hcu, hbu, Bool.false_eq_true, if_false]
          simpa [List.cons_append] using ih hds' l

/-- A single digit directly before the unit letter is captured. -/
theorem findUnit2_hit1 (u a : Char) (hu : isDig u = false) (ha : isDig a = true)
    (l : List Char) : findUnit2 u (a :: u :: l) = some (a.toNat - 48) := by
  cases l with
  | nil => rw [findUnit2_two]; simp only [ha, if_true, beq_self_eq_true, if_true]
  | cons b l2 =>
    rw [findUnit2_big]
    simp only [ha, if_true, hu, Bool.false_and, Bool.false_eq_true, if_false,
      beq_self_eq_true, if_true]

/-- Two digits directly before the unit letter are captured greedily. -/
theorem findUnit2_hit2 (u a b : Char) (ha : isDig a = true) (hb : isDig b = true)
    (l : List Char) :
    findUnit2 u (a :: b :: u :: l) = some (10 * (a.toNat - 48) + (b.toNat - 48)) := by
  rw [findUnit2_big]
  simp only [ha, if_true, hb, beq_self_eq_true, Bool.and_self, Bool.true_and, if_true]

/-- A leading well-sized digit group followed by the unit letter is
captured with its numeric value, whatever follows. -/
theorem findUnit2_hit (u : Char) (hu : isDig u = false) (ds : List Char)
    (hds : ∀ c ∈ ds, isDig c = true) (h1 : 1 ≤ ds.length) (h2 : ds.length ≤ 2)
    (l : List Char) : findUnit2 u (ds ++ u :: l) = some (natOfDigits ds) := by
  rcases ds with _ | ⟨a, _ | ⟨b, _ | ⟨c, tl⟩⟩⟩
  · simp at h1
  · simp only [List.cons_append, List.nil_append]
    rw [findUnit2_hit1 u a hu (hds a (by simp)) l]
    simp [natOfDigits]
  · simp only [List.cons_append, List.nil_append]
    rw [findUnit2_hit2 u a b (hds a (by simp)) (hds b (by simp)) l]
    simp [natOfDigits]
  · exact absurd h2 (by simp only [List.length_cons]; omega)

/-- A single digit directly before the day letter is captured. -/
theorem findUnit3_hit1 (u a : Char) (hu : isDig u = false) (ha : isDig a = true)
    (l : List Char) : findUnit3 u (a :: u :: l) = some (a.toNat - 48) := by
  cases l with
  | nil => rw [findUnit3_two]; simp only [ha, if_true, beq_self_eq_true, if_true]
  | cons b l2 =>
    cases l2 with
    | nil =>
      rw [findUnit3_three]
      simp only [ha, if_true, hu, Bool.false_and, Bool.false_eq_true, if_false,
        beq_self_eq_true, if_true]
    | cons c l3 =>
      rw [findUnit3_big]
      simp only [ha, if_true, hu, Bool.false_and, Bool.false_eq_true, if_false,
        beq_self_eq_true, if_true]

/-- Two digits directly before the day letter are captured greedily. -/
theorem findUnit3_hit2 (u a b : Char) (hu : isDig u = false) (ha : isDig a = true)
    (hb : isDig b = true) (l : List Char) :
    findUnit3 u (a :: b :: u :: l) = some (10 * (a.toNat - 48) + (b.toNat - 48)) := by
  cases l with
  | nil =>
    rw [findUnit3_three]
    simp only [ha, if_true, hb, beq_self_eq_true, Bool.and_self, Bool.true_and, if_true]
  | cons c l2 =>
    rw [findUnit3_big]
    simp only [ha, if_true, hb, hu, beq_self_eq_true, Bool.false_and, Bool.and_false,
      Bool.true_and, Bool.false_eq_true, if_false, if_true]

/-- Three digits directly before the day letter are captured greedily. -/
theorem findUnit3_hit3 (u a b c : Char) (ha : isDig a = true) (hb : isDig b = true)
    (hc : isDig c = true) (l : List Char) :
    findUnit3 u (a :: b :: c :: u :: l) =
      some (100 * (a.toNat - 48) + (10 * (b.toNat - 48) + (c.toNat - 48))) := by
  rw [findUnit3_big]
  simp only [ha, if_true, hb, hc, beq_self_eq_true, Bool.and_self, Bool.true_and, if_true]

/-- A leading well-sized digit group followed by the day letter is
captured with its numeric value, whatever follows. -/
theorem findUnit3_hit (u : Char) (hu : isDig u = false) (ds : List Char)
    (hds : ∀ c ∈ ds, isDig c = true) (h1 : 1 ≤ ds.length) (h2 : ds.length ≤ 3)
    (l : List Char) : findUnit3 u (ds ++ u :: l) = some (natOfDigits ds) := by
  rcases ds with _ | ⟨a, _ | ⟨b, _ | ⟨c, _ | ⟨e, tl⟩⟩⟩⟩
  · simp at h1
  · simp only [List.cons_append, List.nil_append]
    rw [findUnit3_hit1 u a hu (hds a (by simp)) l]
    simp [natOfDigits]
  · simp only [List.cons_append, List.nil_append]
    rw [findUnit3_hit2 u a b hu (hds a (by simp)) (hds b (by simp)) l]
    simp [natOfDigits]
  · simp only [List.cons_append, List.nil_append]
    rw [findUnit3_hit3 u a b c (hds a (by simp)) (hds b (by simp)) (hds c (by simp)) l]
    simp [natOfDigits]
    ring
  · exact absurd h2 (by simp only [List.length_cons]; omega)

/-- On an over-wide digit run directly before the unit letter, the search
slides right and captures the last two digits: the value modulo 100. -/
theorem findUnit2_mod (u : Char) (hu : isDig u = false) :
    ∀ ds : List Char, (∀ c ∈ ds, isDig c = true) → 2 ≤ ds.length →
      ∀ l, findUnit2 u (ds ++ u :: l) = some (natOfDigits ds % 100) := by
  intro ds
  induction ds with
  | nil => intro _ h2 _; simp at h2
  | cons a ds' ih =>
    intro hds h2 l
    have ha : isDig a = true := hds a (List.mem_cons_self a ds')
    have hds' : ∀ c ∈ ds', isDig c = true := fun c hc => hds c (List.mem_cons_of_mem a hc)
    rcases ds' with _ | ⟨b, _ | ⟨c, ds''⟩⟩
    · simp at h2
    · have hb : isDig b = true := hds' b (by simp)
      simp only [List.cons_append, List.nil_append]
      rw [findUnit2_hit2 u a b ha hb l]
      have hlt : natOfDigits [a, b] < 100 := by
        have h := natOfDigits_lt [a, b] (by
          intro x hx
          rcases List.mem_cons.mp hx with rfl | hx
          · exact ha
          rcases List.mem_cons.mp hx with rfl | hx
          · exact hb
          · simp at hx)
        simpa using h
      rw [Nat.mod_eq_of_lt hlt]
      simp [natOfDigits]
    · have hb : isDig b = true := hds' b (by simp)
      have hc : isDig c = true := hds' c (by simp)
      have hbu : (b == u) = false := beq_false_of_dig hb hu
      have hcu : (c == u) = false := beq_false_of_dig hc hu
      simp only [List.cons_append]
      rw [findUnit2_big]
      simp only [ha, if_true, hcu, Bool.and_false, hbu, Bool.false_eq_true, if_false]
      have hih := ih hds' (by simp only [List.length_cons]; omega) l
      simp only [List.cons_append] at hih
      rw [hih]
      have hdvd : (100 : Nat) ∣ 10 ^ (b :: c :: ds'').length := by
        have hd := pow_dvd_pow 10 (show 2 ≤ (b :: c :: ds'').length by
          simp only [List.length_cons]; omega)
        norm_num at hd
        exact hd
      rw [natOfDigits_cons_mod a (b :: c :: ds'') 100 hdvd]

/-- On an over-wide digit run directly before the day letter, the search
slides right and captures the last three digits: the value modulo 1000. -/
theorem findUnit3_mod (u : Char) (hu : isDig u = false) :
    ∀ ds : List Char, (∀ c ∈ ds, isDig c = true) → 3 ≤ ds.length →
      ∀ l, findUnit3 u (ds ++ u :: l) = some (natOfDigits ds % 1000) := by
  intro ds
  induction ds with
  | nil => intro _ h3 _; simp at h3
  | cons a ds' ih =>
    intro hds h3 l
    have ha : isDig a = true := hds a (List.mem_cons_self a ds')
    have hds' : ∀ c ∈ ds', isDig c = true := fun c hc => hds c (List.mem_cons_of_mem a hc)
    rcases ds' with _ | ⟨b, _ | ⟨c, _ | ⟨e, ds''⟩⟩⟩
    · simp at h3
    · simp only [List.length_cons, List.length_nil] at h3; omega
    · have hb : isDig b = true := hds' b (by simp)
      have hc : isDig c = true := hds' c (by simp)
      simp only [List.cons_append, List.nil_append]
      rw [findUnit3_hit3 u a b c ha hb hc l]
      have hlt : natOfDigits [a, b, c] < 1000 := by
        have h := natOfDigits_lt [a, b, c] (by
          intro x hx
          rcases List.mem_cons.mp hx with rfl | hx
          · exact ha
          rcases List.mem_cons.mp hx with rfl | hx
          · exact hb
          rcases List.mem_cons.mp hx with rfl | hx
          · exact hc
          · simp at hx)
        simpa using h
      rw [Nat.mod_eq_of_lt hlt]
      simp [natOfDigits]
      ring
    · have hb : isDig b = true := hds' b (by simp)
      have hc : isDig c = true := hds' c (by simp)
      have he : isDig e = true := hds' e (by simp)
      have hbu : (b == u) = false := beq_false_of_dig hb hu
      have hcu : (c == u) = false := beq_false_of_dig hc hu
      have heu : (e == u) = false := beq_false_of_dig he hu
      simp only [List.cons_append]
      rw [findUnit3_big]
      simp only [ha, if_true, heu, Bool.and_false, hcu, hbu, Bool.false_eq_true, if_false]
      have hih := ih hds' (by simp only [List.length_cons]; omega) l
      simp only [List.cons_append] at hih
      rw [hih]
      have hdvd : (1000 : Nat) ∣ 10 ^ (b :: c :: e :: ds'').length := by
        have hd := pow_dvd_pow 10 (show 3 ≤ (b :: c :: e :: ds'').length by
          simp only [List.length_cons]; omega)
        norm_num at hd
        exact hd
      rw [natOfDigits_cons_mod a (b :: c :: e :: ds'') 1000 hdvd]

/-- Characters of a rendered token list are token digits or unit letters. -/
theorem mem_renderToks {x : Char} :
    ∀ {ts : List (List Char × Char)}, x ∈ renderToks ts →
      (∃ p ∈ ts, x ∈ p.1) ∨ ∃ p ∈ ts, x = p.2 := by
  intro ts
  induction ts with
  | nil => intro h; simp [renderToks] at h
  | cons p ts ih =>
    intro h
    simp only [renderToks] at h
    rcases List.mem_append.mp h with h | h
    · exact Or.inl ⟨p, List.mem_cons_self p ts, h⟩
    · rcases List.mem_cons.mp h with rfl | h
      · exact Or.inr ⟨p, List.mem_cons_self p ts, rfl⟩
      · rcases ih h with ⟨q, hq, hxq⟩ | ⟨q, hq, hxq⟩
        · exact Or.inl ⟨q, List.mem_cons_of_mem p hq, hxq⟩
        · exact Or.inr ⟨q, List.mem_cons_of_mem p hq, hxq⟩

/-- A unit letter absent from every token does not occur in the render. -/
theorem unit_not_mem_renderToks (u : Char) (hu : isDig u = false)
    (ts : List (List Char × Char)) (hwf : ∀ p ∈ ts, wfTok p)
    (hne : ∀ p ∈ ts, p.2 ≠ u) : u ∉ renderToks ts := by
  intro hmem
  rcases mem_renderToks hmem with ⟨p, hp, hup⟩ | ⟨p, hp, hup⟩
  · have hd : isDig u = true := (hwf p hp).1 u hup
    rw [hd] at hu
    cases hu
  · exact hne p hp hup.symm

/-- The parser sums the token values, independently per unit and
independently of how the tokens are ordered in the text. -/
theorem secs_renderToks :
    ∀ ts : List (List Char × Char), (∀ p ∈ ts, wfTok p) →
      ts.Pairwise (fun p q => p.2 ≠ q.2) →
      secs_from_string (renderToks ts) = (ts.map tokSeconds).sum := by
  intro ts
  induction ts with
  | nil => intro _ _; rfl
  | cons p ts ih =>
    intro hwf hdist
    obtain ⟨ds, w⟩ := p
    obtain ⟨hpd, hplen, hpwid, hpmem⟩ := hwf (ds, w) (List.mem_cons_self _ _)
    simp only at hpd hplen hpwid hpmem
    have hwf' : ∀ q ∈ ts, wfTok q := fun q hq => hwf q (List.mem_cons_of_mem _ hq)
    have hphead : ∀ q ∈ ts, w ≠ q.2 := by
      have h := (List.pairwise_cons.mp hdist).1
      simpa using h
    have hih := ih hwf' (List.pairwise_cons.mp hdist).2
    rcases (show w = 's' ∨ w = 'm' ∨ w = 'h' ∨ w = 'd' by simpa using hpmem)
      with rfl | rfl | rfl | rfl
    · have hlen2 : ds.length ≤ 2 := by simpa using hpwid
      unfold secs_from_string
      simp only [renderToks]
      rw [findUnit2_hit 's' (by decide) ds hpd hplen hlen2 (renderToks ts),
        findUnit2_skip 'm' 's' (by decide) (by decide) (by decide) ds hpd (renderToks ts),
        findUnit2_skip 'h' 's' (by decide) (by decide) (by decide) ds hpd (renderToks ts),
        findUnit3_skip 'd' 's' (by decide) (by decide) (by decide) ds hpd (renderToks ts)]
      have hnone : findUnit2 's' (renderToks ts) = none :=
        findUnit2_none 's' _ (unit_not_mem_renderToks 's' (by decide) ts hwf'
          fun q hq => (hphead q hq).symm)
      unfold secs_from_string at hih
      rw [hnone] at hih
      simp only [Option.getD_some, Option.getD_none] at hih ⊢
      have htok : tokSeconds (ds, 's') = natOfDigits ds * 1 := by
        simp [tokSeconds, unitFactor]
      rw [List.map_cons, List.sum_cons, htok]
      omega
    · have hlen2 : ds.length ≤ 2 := by simpa using hpwid
      unfold secs_from_string
      simp only [renderToks]
      rw [findUnit2_hit 'm' (by decide) ds hpd hplen hlen2 (renderToks ts),
        findUnit2_skip 's' 'm' (by decide) (by decide) (by decide) ds hpd (renderToks ts),
        findUnit2_skip 'h' 'm' (by decide) (by decide) (by decide) ds hpd (renderToks ts),
        findUnit3_skip 'd' 'm' (by decide) (by decide) (by decide) ds hpd (renderToks ts)]
      have hnone : findUnit2 'm' (renderToks ts) = none :=
        findUnit2_none 'm' _ (unit_not_mem_renderToks 'm' (by decide) ts hwf'
          fun q hq => (hphead q hq).symm)
      unfold secs_from_string at hih
      rw [hnone] at hih
      simp only [Option.getD_some, Option.getD_none] at hih ⊢
      have htok : tokSeconds (ds, 'm') = natOfDigits ds * 60 := by
        simp [tokSeconds, unitFactor]
      rw [List.map_cons, List.sum_cons, htok]
      omega
    · have hlen2 : ds.length ≤ 2 := by simpa using hpwid
      unfold secs_from_string
      simp only [renderToks]
      rw [findUnit2_hit 'h' (by decide) ds hpd hplen hlen2 (renderToks ts),
        findUnit2_skip 's' 'h' (by decide) (by decide) (by decide) ds hpd (renderToks ts),
        findUnit2_skip 'm' 'h' (by decide) (by decide) (by decide) ds hpd (renderToks ts),
        findUnit3_skip 'd' 'h' (by decide) (by decide) (by decide) ds hpd (renderToks ts)]
      have hnone : findUnit2 'h' (renderToks ts) = none :=
        findUnit2_none 'h' _ (unit_not_mem_renderToks 'h' (by decide) ts hwf'
          fun q hq => (hphead q hq).symm)
      unfold secs_from_string at hih
      rw [hnone] at hih
      simp only [Option.getD_some, Option.getD_none] at hih ⊢
      have htok : tokSeconds (ds, 'h') = natOfDigits ds * 3600 := by
        simp [tokSeconds, unitFactor]
      rw [List.map_cons, List.sum_cons, htok]
      omega
    · have hlen3 : ds.length ≤ 3 := by simpa using hpwid
      unfold secs_from_string
      simp only [renderToks]
      rw [findUnit3_hit 'd' (by decide) ds hpd hplen hlen3 (renderToks ts),
        findUnit2_skip 's' 'd' (by decide) (by decide) (by decide) ds hpd (renderToks ts),
        findUnit2_skip 'm' 'd' (by decide) (by decide) (by decide) ds hpd (renderToks ts),
        findUnit2_skip 'h' 'd' (by decide) (by decide) (by decide) ds hpd (renderToks ts)]
      have hnone : findUnit3 'd' (renderToks ts) = none :=
        findUnit3_none 'd' _ (unit_not_mem_renderToks 'd' (by decide) ts hwf'
          fun q hq => (hphead q hq).symm)
      unfold secs_from_string at hih
      rw [hnone] at hih
      simp only [Option.getD_some, Option.getD_none] at hih ⊢
      have htok : tokSeconds (ds, 'd') = natOfDigits ds * 86400 := by
        simp [tokSeconds, unitFactor]
      rw [List.map_cons, List.sum_cons, htok]
      omega

/-- Claim C3: the parser returns the sum over the four units of the first
captured value times the unit factor (1, 60, 3600, 86400), each pattern
searched independently and applied at most once, regardless of the order
of the tokens in the text; a text matching no unit pattern yields 0
seconds, and "1h30m" yields 5400 seconds. -/
theorem c3_parse_sums_units :
    (∀ ts : List (List Char × Char), (∀ p ∈ ts, wfTok p) →
      ts.Pairwise (fun p q => p.2 ≠ q.2) →
      secs_from_string (renderToks ts) = (ts.map tokSeconds).sum) ∧
    (∀ cs : List Char, findUnit2 's' cs = none → findUnit2 'm' cs = none →
      findUnit2 'h' cs = none → findUnit3 'd' cs = none → secs_from_string cs = 0) ∧
    secs_from_string "1h30m".data = 5400 := by
  refine ⟨secs_renderToks, ?_, rfl⟩
  intro cs h1 h2 h3 h4
  unfold secs_from_string
  rw [h1, h2, h3, h4]
  rfl

/-- Witness for C3: the tokens 30m and 1h rendered in the order "30m1h"
still parse to the sum 5400; a text with no matches parses to 0. -/
theorem c3_parse_sums_units_witness :
    (∀ p ∈ demoToks, wfTok p) ∧ demoToks.Pairwise (fun p q => p.2 ≠ q.2) ∧
      secs_from_string (renderToks demoToks) = (demoToks.map tokSeconds).sum ∧
      secs_from_string [] = 0 :=
  ⟨by decide, by decide,
    c3_parse_sums_units.1 demoToks (by decide) (by decide),
    c3_parse_sums_units.2.1 [] rfl rfl rfl rfl⟩

/-- Claim C6 counterexample: the over-wide number in "123s" does not
contribute nothing: the search matches its last two digits and the text
parses to 23 seconds, not 0. -/
theorem c6_overflow_ignored_cex :
    secs_from_string "123s".data = 23 ∧ secs_from_string "123s".data ≠ 0 := by
  constructor
  · rfl
  · decide

/-- Claim C6 amended: a numeric value above 99 for s/m/h (above 999 for d)
is not matched as a whole by the fixed-width pattern; the search instead
matches the last two (for d: three) digits directly before the unit
letter, ignoring the leading excess digits, so the number contributes its
value modulo 100 (for d: modulo 1000) times the unit factor rather than
nothing. -/
theorem c6_overflow_truncated (ds : List Char) (hds : ∀ c ∈ ds, isDig c = true) :
    (3 ≤ ds.length →
      secs_from_string (ds ++ ['s']) = natOfDigits ds % 100 ∧
      secs_from_string (ds ++ ['m']) = 60 * (natOfDigits ds % 100) ∧
      secs_from_string (ds ++ ['h']) = 3600 * (natOfDigits ds % 100)) ∧
    (4 ≤ ds.length →
      secs_from_string (ds ++ ['d']) = 86400 * (natOfDigits ds % 1000)) := by
  have hnotin : ∀ v u : Char, isDig v = false → v ≠ u → v ∉ ds ++ [u] := by
    intro v u hv hvu hmem
    rcases List.mem_append.mp hmem with h | h
    · rw [hds v h] at hv; cases hv
    · simp at h; exact hvu h
  constructor
  · intro h3
    refine ⟨?_, ?_, ?_⟩
    · unfold secs_from_string
      rw [findUnit2_mod 's' (by decide) ds hds (by omega) [],
        findUnit2_none 'm' _ (hnotin 'm' 's' (by decide) (by decide)),
        findUnit2_none 'h' _ (hnotin 'h' 's' (by decide) (by decide)),
        findUnit3_none 'd' _ (hnotin 'd' 's' (by decide) (by decide))]
      simp
    · unfold secs_from_string
      rw [findUnit2_mod 'm' (by decide) ds hds (by omega) [],
        findUnit2_none 's' _ (hnotin 's' 'm' (by decide) (by decide)),
        findUnit2_none 'h' _ (hnotin 'h' 'm' (by decide) (by decide)),
        findUnit3_none 'd' _ (hnotin 'd' 'm' (by decide) (by decide))]
      simp
    · unfold secs_from_string
      rw [findUnit2_mod 'h' (by decide) ds hds (by omega) [],
        findUnit2_none 's' _ (hnotin 's' 'h' (by decide) (by decide)),
        findUnit2_none 'm' _ (hnotin 'm' 'h' (by decide) (by decide)),
        findUnit3_none 'd' _ (hnotin 'd' 'h' (by decide) (by decide))]
      simp
  · intro h4
    unfold secs_from_string
    rw [findUnit3_mod 'd' (by decide) ds hds (by omega) [],
      findUnit2_none 's' _ (hnotin 's' 'd' (by decide) (by decide)),
      findUnit2_none 'm' _ (hnotin 'm' 'd' (by decide) (by decide)),
      findUnit2_none 'h' _ (hnotin 'h' 'd' (by decide) (by decide))]
    simp

/-- Witness for the amended C6 at the digit run 1234. -/
theorem c6_overflow_truncated_witness :
    (∀ c ∈ ['1', '2', '3', '4'], isDig c = true) ∧
      (secs_from_string (['1', '2', '3', '4'] ++ ['s']) =
          natOfDigits ['1', '2', '3', '4'] % 100 ∧
        secs_from_string (['1', '2', '3', '4'] ++ ['m']) =
          60 * (natOfDigits ['1', '2', '3', '4'] % 100) ∧
        secs_from_string (['1', '2', '3', '4'] ++ ['h']) =
          3600 * (natOfDigits ['1', '2', '3', '4'] % 100)) ∧
      secs_from_string (['1', '2', '3', '4'] ++ ['d']) =
        86400 * (natOfDigits ['1', '2', '3', '4'] % 1000) :=
  ⟨by decide, (c6_overflow_truncated _ (by decide)).1 (by decide),
    (c6_overflow_truncated _ (by decide)).2 (by decide)⟩
